/-
Verification of the bounded web crawler / scraper core
(backend server: normalizeUrl, isSameDomain, crawl, /api/scrape, /api/crawl).

The crawler consumes two external capabilities: the WHATWG URL library
(node:url) and an HTTP+HTML stack (axios + cheerio).  Both are modelled:

* URLs are modelled by a character-level parser/serializer for absolute
  http/https URLs (scheme, lowercase host, explicit port, path, query,
  fragment).  The model covers the fragment of the WHATWG behaviour the
  crawler relies on: fragment and query splitting, the path defaulting to
  "/", default-port elision, and verbatim serialization of the components.
  Exotic WHATWG behaviours (punycode, percent re-encoding, dot-segment
  collapsing, backslash tolerance, userinfo) are outside the model; a URL
  is "valid" below when the model parser accepts it.

* The network and the HTML parser are modelled by oracles.  A network
  oracle `String -> NetOutcome` says what the wire delivers: a transport
  failure with a reason string, or a received response carrying the HTTP
  status, the content-type header and the data cheerio would extract from
  the body (title text, meta lookups, heading/paragraph texts, anchor
  hrefs).  `axiosGet` models the plain axios get the server performs,
  with the default validateStatus: a received non-2xx response rejects
  with the standard axios message instead of resolving.  The crawl loop
  itself consumes the post-axios outcome `String -> FetchOutcome`
  (rejection reason, or resolved response).  The repository code
  downstream of that boundary (content-type dispatch, field assembly,
  link resolution/normalization/dedup, the frontier loop) is translated
  directly.
-/
import Mathlib

set_option linter.unusedVariables false

/-! ## URL model -/

/-- Schemes admitted by the URL model (the crawler validates http/https). -/
inductive Scheme where
  | http
  | https
deriving DecidableEq, Repr

/-- Components of a parsed absolute URL, mirroring the WHATWG URL record
as used by the server: hostname, optional port, path, query, fragment. -/
structure URLModel where
  scheme : Scheme
  host : List Char
  port : Option (List Char)
  path : List Char
  query : Option (List Char)
  frag : Option (List Char)
deriving DecidableEq, Repr

/-- Characters admitted in a hostname by the model (lowercase ASCII
letters, digits, dot, hyphen). -/
def isHostChar (c : Char) : Bool :=
  (('a' ≤ c) && (c ≤ 'z')) || c.isDigit || c == '.' || c == '-'

/-- Characters that terminate the authority component. -/
def authEnd (c : Char) : Bool :=
  c == '/' || c == '?' || c == '#'

/-- Characters admitted in a scheme name. -/
def isSchemeChar (c : Char) : Bool :=
  c.isAlpha || c.isDigit || c == '+' || c == '-' || c == '.'

def isSlash (c : Char) : Bool := c == '/'

/-- Split off the literal scheme marker of an absolute special URL. -/
def splitScheme : List Char → Option (Scheme × List Char)
  | 'h' :: 't' :: 't' :: 'p' :: 's' :: ':' :: '/' :: '/' :: r => some (Scheme.https, r)
  | 'h' :: 't' :: 't' :: 'p' :: ':' :: '/' :: '/' :: r => some (Scheme.http, r)
  | _ => none

/-- Split an authority sequence into hostname and optional port text. -/
def splitPort (auth : List Char) : List Char × Option (List Char) :=
  match auth.dropWhile (fun c => !(c == ':')) with
  | [] => (auth.takeWhile (fun c => !(c == ':')), none)
  | _ :: ps => (auth.takeWhile (fun c => !(c == ':')), some ps)

/-- Split a sequence at the first '#': the part before it and the
fragment after it (if any). -/
def splitFrag (l : List Char) : List Char × Option (List Char) :=
  match l.dropWhile (fun c => !(c == '#')) with
  | [] => (l.takeWhile (fun c => !(c == '#')), none)
  | _ :: f => (l.takeWhile (fun c => !(c == '#')), some f)

/-- Split a sequence at the first '?': the part before it and the query
after it (if any). -/
def splitQuery (l : List Char) : List Char × Option (List Char) :=
  match l.dropWhile (fun c => !(c == '?')) with
  | [] => (l.takeWhile (fun c => !(c == '?')), none)
  | _ :: q => (l.takeWhile (fun c => !(c == '?')), some q)

/-- Default-port test: 80 for http, 443 for https. -/
def isDefaultPort (s : Scheme) (ps : List Char) : Bool :=
  match s with
  | Scheme.http => ps == ['8', '0']
  | Scheme.https => ps == ['4', '4', '3']

/-- Elide a default port, as the WHATWG parser does. -/
def stripDefault (s : Scheme) : Option (List Char) → Option (List Char)
  | none => none
  | some ps => if isDefaultPort s ps then none else some ps

/-- Validity of the optional port text: nonempty and all digits. -/
def portOK : Option (List Char) → Bool
  | none => true
  | some ps => !ps.isEmpty && ps.all Char.isDigit

/-- Parser for absolute http/https URLs (model of new URL(raw)). -/
def parseList (l : List Char) : Option URLModel :=
  match splitScheme l with
  | none => none
  | some (sch, rest) =>
    let auth := rest.takeWhile (fun c => !(authEnd c))
    let after := rest.dropWhile (fun c => !(authEnd c))
    let hp := splitPort auth
    if !hp.1.isEmpty && hp.1.all isHostChar && portOK hp.2 then
      let bf := splitFrag after
      let pq := splitQuery bf.1
      some { scheme := sch, host := hp.1, port := stripDefault sch hp.2,
             path := if pq.1.isEmpty then ['/'] else pq.1,
             query := pq.2, frag := bf.2 }
    else none

def parseURL (s : String) : Option URLModel := parseList s.data

/-- Scheme marker characters used by the serializer. -/
def schemeChars : Scheme → List Char
  | Scheme.http => ['h', 't', 't', 'p']
  | Scheme.https => ['h', 't', 't', 'p', 's']

/-- Serialized optional port marker. -/
def portPart : Option (List Char) → List Char
  | none => []
  | some ps => ':' :: ps

/-- Serialized optional query marker. -/
def queryPart : Option (List Char) → List Char
  | none => []
  | some q => '?' :: q

/-- Serialized optional fragment marker. -/
def fragPart : Option (List Char) → List Char
  | none => []
  | some f => '#' :: f

/-- Serializer (model of URL#toString / href). -/
def serializeList (p : URLModel) : List Char :=
  schemeChars p.scheme ++ [':', '/', '/'] ++ p.host ++ portPart p.port ++
    p.path ++ queryPart p.query ++ fragPart p.frag

def serializeURL (p : URLModel) : String := String.mk (serializeList p)

/-- Remove every trailing slash (model of replace with a trailing-slash
anchored pattern). -/
def rstripSlashes (l : List Char) : List Char :=
  (l.reverse.dropWhile isSlash).reverse

/-- Model of normalizeUrl: parse, drop the fragment, serialize, strip
trailing slashes; null (none) when unparseable. -/
def normalizeUrl (raw : String) : Option String :=
  match parseList raw.data with
  | none => none
  | some p => some (String.mk (rstripSlashes (serializeList { p with frag := none })))

/-- Model of isHttpUrl: the string parses as an http/https URL. -/
def isHttpUrl (value : String) : Bool := (parseList value.data).isSome

/-- Model of isSameDomain: the url parses and its hostname equals the
origin's hostname. -/
def isSameDomain (url : String) (origin : URLModel) : Bool :=
  match parseList url.data with
  | some p => p.host == origin.host
  | none => false

/-! ## Relative reference resolution (model of new URL(href, base)) -/

/-- Does the sequence start with a scheme name followed by a colon? -/
def hasScheme : List Char → Bool
  | [] => false
  | c :: rest =>
    c.isAlpha &&
      (match (c :: rest).dropWhile isSchemeChar with
       | ':' :: _ => true
       | _ => false)

/-- Directory part of a path: everything up to and including the last
slash. -/
def dirOf (p : List Char) : List Char :=
  (p.reverse.dropWhile (fun c => !(c == '/'))).reverse

/-- Resolve a scheme-less reference against a parsed base. -/
def resolveList (href : List Char) (b : URLModel) : URLModel :=
  match href with
  | [] => { b with frag := none }
  | '#' :: r => { b with frag := some r }
  | '?' :: r =>
    let qf := splitFrag r
    { b with query := some qf.1, frag := qf.2 }
  | '/' :: '/' :: r =>
    match parseList (schemeChars b.scheme ++ [':', '/', '/'] ++ r) with
    | some p => p
    | none => b
  | '/' :: r =>
    let bf := splitFrag ('/' :: r)
    let pq := splitQuery bf.1
    { b with path := if pq.1.isEmpty then ['/'] else pq.1, query := pq.2, frag := bf.2 }
  | other =>
    let bf := splitFrag other
    let pq := splitQuery bf.1
    { b with path := dirOf b.path ++ pq.1, query := pq.2, frag := bf.2 }

/-- Model of new URL(href, base).toString(): absolute http/https hrefs
stand alone; malformed http/https hrefs fail; opaque-scheme hrefs are
kept verbatim; scheme-less hrefs are resolved against the base. -/
def resolveUrl (href : String) (base : String) : Option String :=
  match parseList base.data with
  | none => none
  | some b =>
    match parseList href.data with
    | some p => some (serializeURL p)
    | none =>
      if hasScheme href.data then
        if (splitScheme href.data).isSome then none else some href
      else some (serializeURL (resolveList href.data b))

/-! ## Fetch oracle and report records -/

/-- Data the HTTP + cheerio stack yields for one received response: the
status, the content-type header (or empty), and the extraction results
cheerio would produce from the body. -/
structure PageData where
  status : Nat
  contentType : String
  titleText : String
  metaName : String → Option String
  metaProp : String → Option String
  headingTexts : List String
  paragraphTexts : List String
  hrefs : List String

/-- Outcome of the awaited axios call as the crawl code observes it: a
thrown error carrying a reason string, or a resolved response. -/
inductive FetchOutcome where
  | failure (reason : String)
  | success (d : PageData)

/-- What the network delivers for one request: a transport failure, or a
received HTTP response (of any status code). -/
inductive NetOutcome where
  | transportError (reason : String)
  | response (d : PageData)

/-- Default axios validateStatus: only 2xx responses resolve. -/
def validateStatus (status : Nat) : Bool :=
  200 ≤ status && status < 300

/-- Model of a plain axios get with the default validateStatus: a
transport failure rejects with its reason, a received non-2xx response
rejects with the standard axios message, and only a received 2xx
response resolves. -/
def axiosGet (net : String → NetOutcome) (u : String) : FetchOutcome :=
  match net u with
  | NetOutcome.transportError reason => FetchOutcome.failure reason
  | NetOutcome.response d =>
    if validateStatus d.status then FetchOutcome.success d
    else FetchOutcome.failure ("Request failed with status code " ++ toString d.status)

/-- Model of the CrawlPage record. -/
structure CrawlPage where
  url : String
  status : Option Nat
  title : Option String
  description : Option String
  links : List String
  error : Option String
deriving DecidableEq, Repr

/-- Model of the ScrapeResult record. -/
structure ScrapeResult where
  url : String
  status : Option Nat
  title : Option String
  description : Option String
  ogTitle : Option String
  ogDescription : Option String
  ogImage : Option String
  textPreview : Option String
  headings : List String
  links : List String
  error : Option String
deriving DecidableEq, Repr

/-- Model of a JS truthiness fallback on strings: empty means absent. -/
def strOrNone (s : String) : Option String :=
  if s == "" then none else some s

/-- Model of attr(content) followed by a truthiness fallback to
undefined. -/
def orUndef : Option String → Option String
  | none => none
  | some s => if s == "" then none else some s

/-- Model of a JS or-chain between two attr lookups. -/
def jsOrOpt (a b : Option String) : Option String :=
  match a with
  | none => b
  | some s => if s == "" then b else some s

/-- Model of normalizeUrl(absolute) or-else absolute. -/
def jsOr (n : Option String) (fallback : String) : String :=
  match n with
  | none => fallback
  | some s => if s == "" then fallback else s

/-- First-seen-order deduplication (model of Array.from(new Set(xs))). -/
def dedupAux (seen : List String) : List String → List String
  | [] => []
  | x :: xs => if seen.contains x then dedupAux seen xs else x :: dedupAux (x :: seen) xs

/-- Does the first sequence occur at the start of the second? -/
def startsSeq : List Char → List Char → Bool
  | [], _ => true
  | _ :: _, [] => false
  | p :: ps, c :: cs => p == c && startsSeq ps cs

/-- Does the first sequence occur anywhere inside the second? -/
def containsSeq (pat : List Char) : List Char → Bool
  | [] => pat.isEmpty
  | c :: cs => startsSeq pat (c :: cs) || containsSeq pat cs

/-- Model of contentType.includes of the text/html marker. -/
def includesHtml (contentType : String) : Bool :=
  containsSeq "text/html".data contentType.data

/-- Link assembly shared by crawl and scrape: first 50 anchors, skip
falsy (empty) hrefs, resolve each href against the base, normalize with
fallback to the absolute form, dedupe in insertion order, cap at 50. -/
def computeLinks (hrefs : List String) (base : String) : List String :=
  (dedupAux []
    ((hrefs.take 50).filterMap
      (fun href =>
        if href.isEmpty then none
        else (resolveUrl href base).map (fun abs => jsOr (normalizeUrl abs) abs)))).take 50

/-! ## Crawl operation -/

/-- Options of one crawl invocation (already clamped by the endpoint). -/
structure CrawlOpts where
  maxPages : Nat
  maxDepth : Nat
  sameDomain : Bool
deriving DecidableEq, Repr

/-- The crawl frontier loop, translated from the while loop of crawl:
dequeue, normalize (skip on failure or when visited), mark visited,
fetch, build the page report, and expand same-domain successors while
the depth bound allows. -/
def crawlLoop (fetch : String → FetchOutcome) (origin : URLModel) (o : CrawlOpts) :
    List (String × Nat) → List String → List CrawlPage → List CrawlPage
  | [], _, pages => pages
  | (url, depth) :: rest, visited, pages =>
    if h : pages.length < o.maxPages then
      match normalizeUrl url with
      | none => crawlLoop fetch origin o rest visited pages
      | some normalized =>
        if visited.contains normalized then
          crawlLoop fetch origin o rest visited pages
        else
          match fetch normalized with
          | FetchOutcome.failure reason =>
            crawlLoop fetch origin o rest (normalized :: visited)
              (pages ++ [{ url := normalized, status := none, title := none,
                           description := none, links := [], error := some reason }])
          | FetchOutcome.success d =>
            if includesHtml d.contentType then
              let links := computeLinks d.hrefs normalized
              let page : CrawlPage :=
                { url := normalized, status := some d.status,
                  title := strOrNone d.titleText,
                  description := orUndef (d.metaName "description"),
                  links := links, error := none }
              let visited' := normalized :: visited
              let queue' :=
                if depth + 1 ≤ o.maxDepth then
                  rest ++ (links.filter (fun l =>
                    !l.isEmpty && (!o.sameDomain || isSameDomain l origin) &&
                      !(visited'.contains l))).map (fun l => (l, depth + 1))
                else rest
              crawlLoop fetch origin o queue' visited' (pages ++ [page])
            else
              crawlLoop fetch origin o rest (normalized :: visited)
                (pages ++ [{ url := normalized, status := some d.status, title := none,
                             description := none, links := [],
                             error := some "Skipped non-HTML response" }])
    else pages
termination_by queue _ pages => 51 * (o.maxPages - pages.length) + queue.length
decreasing_by
  · simp only [List.length_cons]; omega
  · simp only [List.length_append, List.length_cons, List.length_nil]; omega
  · simp only [List.length_append, List.length_cons, List.length_nil]
    have h2 : (computeLinks d.hrefs normalized).length ≤ 50 := by
      unfold computeLinks; rw [List.length_take]; omega
    split
    next =>
      rw [List.length_append, List.length_map]
      have h1 := List.length_filter_le (fun l =>
        !l.isEmpty && (!o.sameDomain || isSameDomain l origin) &&
          !((normalized :: visited).contains l)) (computeLinks d.hrefs normalized)
      omega
    next => omega
  · simp only [List.length_append, List.length_cons, List.length_nil]; omega

/-- Model of crawl(startUrl, options): parsing the start URL outside the
try block is the only hard failure (none); otherwise run the loop from
the seeded frontier. -/
def crawl (fetch : String → FetchOutcome) (startUrl : String) (o : CrawlOpts) :
    Option (List CrawlPage) :=
  match parseList startUrl.data with
  | none => none
  | some origin => some (crawlLoop fetch origin o [(startUrl, 0)] [] [])

/-- Model of the /api/crawl maxPages clamp. -/
def safeMaxPages (m : Int) : Nat :=
  (min (max (if m = 0 then 1 else m) 1) 20).toNat

/-- Model of the /api/crawl maxDepth clamp. -/
def safeMaxDepth (m : Int) : Nat :=
  (min (max (if m = 0 then 0 else m) 0) 3).toNat

/-! ## Scrape operation -/

/-- Model of the /api/scrape handler body after URL validation and
normalization, over the fetched target. -/
def scrapeCore (fetch : String → FetchOutcome) (target : String) : ScrapeResult :=
  match fetch target with
  | FetchOutcome.failure reason =>
    { url := target, status := none, title := none, description := none,
      ogTitle := none, ogDescription := none, ogImage := none, textPreview := none,
      headings := [], links := [], error := some reason }
  | FetchOutcome.success d =>
    if includesHtml d.contentType then
      let getMeta := fun (name : String) => jsOrOpt (d.metaName name) (d.metaProp name)
      { url := target, status := some d.status,
        title := strOrNone d.titleText,
        description := orUndef (getMeta "description"),
        ogTitle := orUndef (getMeta "og:title"),
        ogDescription := orUndef (getMeta "og:description"),
        ogImage := orUndef (getMeta "og:image"),
        textPreview := (d.paragraphTexts.find? (fun t => 40 < t.length)).map
          (fun t => (t.data.take 280).asString),
        headings := (d.headingTexts.take 20).filter (fun t => !(t == "")),
        links := computeLinks d.hrefs target, error := none }
    else
      { url := target, status := some d.status, title := none, description := none,
        ogTitle := none, ogDescription := none, ogImage := none, textPreview := none,
        headings := [], links := [], error := some "Skipped non-HTML response" }

/-! ## Link graph reachability (for the depth invariant) -/

/-- Links a page contributes to the frontier graph: the computed link
list when the fetch of its normalized URL is an HTML response, nothing
otherwise. -/
def pageLinks (fetch : String → FetchOutcome) (m : String) : List String :=
  match fetch m with
  | FetchOutcome.failure _ => []
  | FetchOutcome.success d =>
    if includesHtml d.contentType then computeLinks d.hrefs m else []

/-- Normalized URLs reachable from the start URL in a given number of
link steps. -/
inductive Reaches (fetch : String → FetchOutcome) (startUrl : String) : Nat → String → Prop
  | start (n : String) : normalizeUrl startUrl = some n → Reaches fetch startUrl 0 n
  | step (d : Nat) (m l n : String) :
      Reaches fetch startUrl d m → l ∈ pageLinks fetch m → normalizeUrl l = some n →
      Reaches fetch startUrl (d + 1) n

/-! ## Concrete fixtures used by witnesses and scenario theorems -/

/-- Fetch oracle on which every request times out. -/
def fetchTimeout : String → FetchOutcome :=
  fun _ => FetchOutcome.failure "timeout of 10000ms exceeded"

/-- Parsed origin of the concrete start URL. -/
def originA : URLModel :=
  { scheme := Scheme.http, host := "a.com".data, port := none, path := ['/'],
    query := none, frag := none }

/-- Report the crawl emits when the seed fetch times out. -/
def timeoutPage : CrawlPage :=
  { url := "http://a.com", status := none, title := none, description := none,
    links := [], error := some "timeout of 10000ms exceeded" }

/-- HTML start page with one cross-domain and one same-domain link. -/
def pageA : PageData :=
  { status := 200, contentType := "text/html", titleText := "Site A",
    metaName := fun _ => none, metaProp := fun _ => none,
    headingTexts := [], paragraphTexts := [],
    hrefs := ["http://b.com/x", "http://a.com/y"] }

/-- HTML successor page with no links. -/
def pageY : PageData :=
  { status := 200, contentType := "text/html", titleText := "Page Y",
    metaName := fun _ => none, metaProp := fun _ => none,
    headingTexts := [], paragraphTexts := [], hrefs := [] }

/-- Two-page site oracle: the start page links off-domain and on-domain. -/
def fetchTwoPages : String → FetchOutcome := fun u =>
  if u == "http://a.com" then FetchOutcome.success pageA
  else if u == "http://a.com/y" then FetchOutcome.success pageY
  else FetchOutcome.failure "unreachable"

/-- Expected report for the start page of the two-page site. -/
def pgA : CrawlPage :=
  { url := "http://a.com", status := some 200, title := some "Site A",
    description := none, links := ["http://b.com/x", "http://a.com/y"], error := none }

/-- Expected report for the successor page of the two-page site. -/
def pgY : CrawlPage :=
  { url := "http://a.com/y", status := some 200, title := some "Page Y",
    description := none, links := [], error := none }

/-- JSON response fixture. -/
def jsonPage : PageData :=
  { status := 200, contentType := "application/json", titleText := "",
    metaName := fun _ => none, metaProp := fun _ => none,
    headingTexts := [], paragraphTexts := [], hrefs := [] }

/-- Oracle answering every request with a JSON body. -/
def fetchJson : String → FetchOutcome := fun _ => FetchOutcome.success jsonPage

/-- Network-level view of the two-page site: both pages are delivered
with status 200. -/
def netTwoPages : String → NetOutcome := fun u =>
  if u == "http://a.com" then NetOutcome.response pageA
  else if u == "http://a.com/y" then NetOutcome.response pageY
  else NetOutcome.transportError "unreachable"

/-- Received HTML error page with status 404. -/
def page404 : PageData :=
  { status := 404, contentType := "text/html", titleText := "Not Found",
    metaName := fun _ => none, metaProp := fun _ => none,
    headingTexts := [], paragraphTexts := [], hrefs := [] }

/-- Network that delivers the 404 page for every request. -/
def netNotFound : String → NetOutcome := fun _ => NetOutcome.response page404

/-- Consistency of one emitted report with the fetch oracle: a transport
failure leaves only the url, the reason and an empty link list; a
received response records its HTTP status, with the extracted fields on
an HTML content type and the skip marker otherwise. -/
def reportConsistent (fetch : String → FetchOutcome) (p : CrawlPage) : Prop :=
  (∀ r, fetch p.url = FetchOutcome.failure r →
    p.status = none ∧ p.title = none ∧ p.description = none ∧
      p.links = [] ∧ p.error = some r) ∧
  (∀ d, fetch p.url = FetchOutcome.success d →
    p.status = some d.status ∧
    (includesHtml d.contentType = true →
      p.error = none ∧ p.title = strOrNone d.titleText ∧
      p.description = orUndef (d.metaName "description") ∧
      p.links = computeLinks d.hrefs p.url) ∧
    (includesHtml d.contentType = false →
      p.error = some "Skipped non-HTML response" ∧ p.title = none ∧
      p.description = none ∧ p.links = []))

/-- Canonical URL records: exactly the shape the parser produces (valid
host and port, a '/'-headed path free of '?' and '#', a query free of
'#'); the fragment is unconstrained. -/
structure Canon (p : URLModel) : Prop where
  host_ne : p.host.isEmpty = false
  host_ok : p.host.all isHostChar = true
  port_ok : portOK p.port = true
  port_nd : ∀ ps, p.port = some ps → isDefaultPort p.scheme ps = false
  path_cons : ∃ r, p.path = '/' :: r
  path_ok : ∀ c ∈ p.path, (c == '?') = false ∧ (c == '#') = false
  query_ok : ∀ q, p.query = some q → ∀ c ∈ q, (c == '#') = false

/-! ## Generic list lemmas -/

theorem dropWhile_append_cons_neg {α : Type} (p : α → Bool) (a : List α) (c : α)
    (b : List α) (hc : p c = false) :
    (a ++ c :: b).dropWhile p = a.dropWhile p ++ c :: b := by
  induction a with
  | nil => simp [List.dropWhile, hc]
  | cons x xs ih =>
    by_cases hx : p x
    · simp [List.dropWhile, hx, ih]
    · simp [List.dropWhile, hx] at *

theorem dropWhile_append_of_all {α : Type} (p : α → Bool) (a b : List α)
    (h : ∀ x ∈ a, p x = true) :
    (a ++ b).dropWhile p = b.dropWhile p := by
  induction a with
  | nil => simp
  | cons x xs ih =>
    have hx : p x = true := h x (by simp)
    simp only [List.cons_append, List.dropWhile, hx]
    exact ih (fun y hy => h y (by simp [hy]))

theorem dropWhile_append_of_ne_nil {α : Type} (p : α → Bool) (a b : List α)
    (h : a.dropWhile p ≠ []) :
    (a ++ b).dropWhile p = a.dropWhile p ++ b := by
  induction a with
  | nil => simp at h
  | cons x xs ih =>
    by_cases hx : p x
    · simp only [List.dropWhile, hx] at h
      simp only [List.cons_append, List.dropWhile, hx]
      exact ih h
    · simp [List.dropWhile, hx]

theorem dropWhile_head_neg {α : Type} (p : α → Bool) (m : List α) (c : α) (r : List α)
    (h : m.dropWhile p = c :: r) : p c = false := by
  induction m with
  | nil => simp [List.dropWhile] at h
  | cons x xs ih =>
    cases hx : p x with
    | true =>
      simp only [List.dropWhile, hx] at h
      exact ih h
    | false =>
      simp only [List.dropWhile, hx] at h
      injection h with h1 h2
      subst h1
      exact hx

theorem dropWhile_of_all_neg {α : Type} (p : α → Bool) (m : List α)
    (h : ∀ x ∈ m, p x = false) : m.dropWhile p = m := by
  induction m with
  | nil => simp
  | cons x xs ih =>
    have hx := h x (by simp)
    simp [List.dropWhile, hx]

theorem mem_dropWhile {α : Type} (p : α → Bool) (m : List α) (x : α)
    (h : x ∈ m.dropWhile p) : x ∈ m := by
  induction m with
  | nil => simp [List.dropWhile] at h
  | cons y ys ih =>
    by_cases hy : p y
    · simp only [List.dropWhile, hy] at h
      exact List.mem_cons_of_mem _ (ih h)
    · simpa only [List.dropWhile, hy] using h

theorem takeWhile_append_of_all {α : Type} (p : α → Bool) (a b : List α)
    (h : ∀ x ∈ a, p x = true) :
    (a ++ b).takeWhile p = a ++ b.takeWhile p := by
  induction a with
  | nil => simp
  | cons x xs ih =>
    have hx : p x = true := h x (by simp)
    simp only [List.cons_append, List.takeWhile, hx]
    rw [show xs.append b = xs ++ b from rfl, ih (fun y hy => h y (by simp [hy]))]

theorem takeWhile_eq_cons {α : Type} (p : α → Bool) (m : List α) (c : α) (r : List α)
    (h : m.takeWhile p = c :: r) : (∃ m', m = c :: m') ∧ p c = true := by
  cases m with
  | nil => simp [List.takeWhile] at h
  | cons x xs =>
    cases hx : p x with
    | true =>
      simp only [List.takeWhile, hx] at h
      injection h with h1 h2
      subst h1
      exact ⟨⟨xs, rfl⟩, hx⟩
    | false => simp [List.takeWhile, hx] at h

/-! ## Lemmas about trailing-slash stripping -/

theorem rstripSlashes_exists_replicate (l : List Char) :
    ∃ k, l = rstripSlashes l ++ List.replicate k '/' := by
  refine ⟨(l.reverse.takeWhile isSlash).length, ?_⟩
  conv_lhs => rw [← l.reverse_reverse, ← List.takeWhile_append_dropWhile isSlash l.reverse]
  rw [List.reverse_append, rstripSlashes]
  congr 1
  have hall : ∀ x ∈ (l.reverse.takeWhile isSlash).reverse, x = '/' := by
    intro x hx
    have := List.mem_takeWhile_imp (List.mem_reverse.mp hx)
    simpa [isSlash] using this
  rw [List.eq_replicate_of_mem hall]
  simp

theorem rstripSlashes_cons_neg (c : Char) (y : List Char) (hc : isSlash c = false) :
    rstripSlashes (c :: y) = c :: rstripSlashes y := by
  unfold rstripSlashes
  rw [show (c :: y).reverse = y.reverse ++ c :: [] by simp,
    dropWhile_append_cons_neg isSlash y.reverse c [] hc]
  simp

theorem rstripSlashes_append_of_ne_nil (x y : List Char) (h : rstripSlashes y ≠ []) :
    rstripSlashes (x ++ y) = x ++ rstripSlashes y := by
  unfold rstripSlashes at *
  have hd : y.reverse.dropWhile isSlash ≠ [] := by
    intro hnil; rw [hnil] at h; simp at h
  rw [List.reverse_append, dropWhile_append_of_ne_nil isSlash y.reverse x.reverse hd]
  simp

theorem rstripSlashes_append_of_nil (x y : List Char) (h : rstripSlashes y = []) :
    rstripSlashes (x ++ y) = rstripSlashes x := by
  unfold rstripSlashes at *
  have hdr : y.reverse.dropWhile isSlash = [] := by
    have := congrArg List.reverse h
    simpa using this
  rw [List.reverse_append,
    dropWhile_append_of_all isSlash y.reverse x.reverse (List.dropWhile_eq_nil_iff.mp hdr)]

theorem rstripSlashes_idem (l : List Char) :
    rstripSlashes (rstripSlashes l) = rstripSlashes l := by
  unfold rstripSlashes
  rw [List.reverse_reverse]
  cases hd : l.reverse.dropWhile isSlash with
  | nil => simp
  | cons c r =>
    have hc := dropWhile_head_neg isSlash l.reverse c r hd
    simp [List.dropWhile, hc]

theorem rstripSlashes_of_all_neg (m : List Char) (h : ∀ c ∈ m, isSlash c = false) :
    rstripSlashes m = m := by
  unfold rstripSlashes
  rw [dropWhile_of_all_neg isSlash m.reverse (fun c hc => h c (List.mem_reverse.mp hc))]
  simp

theorem mem_rstripSlashes (m : List Char) (x : Char) (h : x ∈ rstripSlashes m) : x ∈ m := by
  unfold rstripSlashes at h
  have := mem_dropWhile isSlash m.reverse x (List.mem_reverse.mp h)
  exact List.mem_reverse.mp this

theorem rstripSlashes_getLast_neg (m : List Char) (c : Char) (r : List Char)
    (h : rstripSlashes m = r ++ [c]) : isSlash c = false := by
  unfold rstripSlashes at h
  have : m.reverse.dropWhile isSlash = c :: r.reverse := by
    have := congrArg List.reverse h
    simpa using this
  exact dropWhile_head_neg isSlash m.reverse c r.reverse this

theorem takeWhile_of_all {α : Type} (p : α → Bool) (m : List α)
    (h : ∀ x ∈ m, p x = true) : m.takeWhile p = m := by
  induction m with
  | nil => simp
  | cons x xs ih =>
    have hx := h x (by simp)
    simp only [List.takeWhile, hx]
    rw [ih (fun y hy => h y (by simp [hy]))]

theorem mem_takeWhile_mem {α : Type} (p : α → Bool) (m : List α) (x : α)
    (h : x ∈ m.takeWhile p) : x ∈ m := by
  induction m with
  | nil => simp [List.takeWhile] at h
  | cons y ys ih =>
    cases hy : p y with
    | true =>
      simp only [List.takeWhile, hy] at h
      rcases List.mem_cons.mp h with h1 | h1
      · simp [h1]
      · exact List.mem_cons_of_mem _ (ih h1)
    | false => simp [List.takeWhile, hy] at h

theorem takeWhile_pred {α : Type} (p : α → Bool) (m : List α) (x : α)
    (h : x ∈ m.takeWhile p) : p x = true := by
  induction m with
  | nil => simp [List.takeWhile] at h
  | cons y ys ih =>
    cases hy : p y with
    | true =>
      simp only [List.takeWhile, hy] at h
      rcases List.mem_cons.mp h with h1 | h1
      · rw [h1]; exact hy
      · exact ih h1
    | false => simp [List.takeWhile, hy] at h

theorem bnot_eq_true (b : Bool) (h : (!b) = true) : b = false := by
  cases b
  · rfl
  · simp at h

theorem bnot_eq_false (b : Bool) (h : (!b) = false) : b = true := by
  cases b
  · simp at h
  · rfl

/-! ## Character class facts -/

theorem class_bne (f : Char → Bool) (c x : Char) (h : f c = true) (hx : f x = false) :
    (c == x) = false := by
  cases hcx : c == x with
  | false => rfl
  | true =>
    have hce := eq_of_beq hcx
    subst hce
    rw [h] at hx
    exact absurd hx (by simp)

theorem hostChar_pred (c : Char) (h : isHostChar c = true) :
    (!authEnd c) = true ∧ (!(c == ':')) = true ∧ isSlash c = false := by
  have h1 := class_bne isHostChar c '/' h (by decide)
  have h2 := class_bne isHostChar c '?' h (by decide)
  have h3 := class_bne isHostChar c '#' h (by decide)
  have h4 := class_bne isHostChar c ':' h (by decide)
  exact ⟨by simp [authEnd, h1, h2, h3], by simp [h4], by simp [isSlash, h1]⟩

theorem digit_pred (c : Char) (h : c.isDigit = true) :
    (!authEnd c) = true ∧ (!(c == ':')) = true ∧ isSlash c = false := by
  have h1 := class_bne Char.isDigit c '/' h (by decide)
  have h2 := class_bne Char.isDigit c '?' h (by decide)
  have h3 := class_bne Char.isDigit c '#' h (by decide)
  have h4 := class_bne Char.isDigit c ':' h (by decide)
  exact ⟨by simp [authEnd, h1, h2, h3], by simp [h4], by simp [isSlash, h1]⟩

/-! ## Splitter lemmas -/

theorem splitFrag_fst (l : List Char) :
    (splitFrag l).1 = l.takeWhile (fun c => !(c == '#')) := by
  unfold splitFrag
  split <;> rfl

theorem splitQuery_fst (l : List Char) :
    (splitQuery l).1 = l.takeWhile (fun c => !(c == '?')) := by
  unfold splitQuery
  split <;> rfl

theorem splitFrag_snd_some (l : List Char) (f : List Char)
    (h : (splitFrag l).2 = some f) :
    ∃ y, l.dropWhile (fun c => !(c == '#')) = y :: f := by
  unfold splitFrag at h
  split at h
  · simp at h
  · next y f' heq =>
    simp only at h
    injection h with h1
    subst h1
    exact ⟨y, heq⟩

theorem splitQuery_snd_some (l : List Char) (q : List Char)
    (h : (splitQuery l).2 = some q) :
    ∃ y, l.dropWhile (fun c => !(c == '?')) = y :: q := by
  unfold splitQuery at h
  split at h
  · simp at h
  · next y q' heq =>
    simp only at h
    injection h with h1
    subst h1
    exact ⟨y, heq⟩

theorem splitScheme_marker (sch : Scheme) (r : List Char) :
    splitScheme (schemeChars sch ++ ([':', '/', '/'] ++ r)) = some (sch, r) := by
  cases sch <;> rfl

/-! ## stripDefault lemmas -/

theorem stripDefault_portOK (s : Scheme) (q : Option (List Char)) (h : portOK q = true) :
    portOK (stripDefault s q) = true := by
  cases q with
  | none => rfl
  | some ps =>
    by_cases hd : isDefaultPort s ps = true
    · simp [stripDefault, hd, portOK]
    · simp only [stripDefault, if_neg hd]
      exact h

theorem stripDefault_nd (s : Scheme) (q : Option (List Char)) (ps : List Char)
    (h : stripDefault s q = some ps) : isDefaultPort s ps = false := by
  cases q with
  | none => simp [stripDefault] at h
  | some ps' =>
    by_cases hd : isDefaultPort s ps' = true
    · simp [stripDefault, hd] at h
    · simp only [stripDefault, if_neg hd] at h
      injection h with h1
      subst h1
      simpa using hd

/-! ## Parser output is canonical -/

theorem parse_canon (l : List Char) (p : URLModel) (h : parseList l = some p) : Canon p := by
  unfold parseList at h
  cases hs : splitScheme l with
  | none => rw [hs] at h; simp at h
  | some sr =>
    rw [hs] at h
    obtain ⟨sch, rest⟩ := sr
    dsimp only at h
    split at h
    case isFalse => simp at h
    case isTrue hcond =>
      injection h with h1
      subst h1
      simp only [Bool.and_eq_true] at hcond
      obtain ⟨⟨hne, hok⟩, hpo⟩ := hcond
      refine ⟨by simpa using hne, hok, stripDefault_portOK _ _ hpo,
        fun ps hps => stripDefault_nd _ _ _ hps, ?_, ?_, ?_⟩
      · by_cases he : (splitQuery (splitFrag (rest.dropWhile fun c => !(authEnd c))).1).1.isEmpty = true
        · exact ⟨[], by simp [he]⟩
        · cases hq : (splitQuery (splitFrag (rest.dropWhile fun c => !(authEnd c))).1).1 with
          | nil => rw [hq] at he; exact absurd rfl he
          | cons c cs =>
            rw [splitQuery_fst] at hq
            obtain ⟨⟨m1, hm1⟩, hq2⟩ := takeWhile_eq_cons _ _ _ _ hq
            rw [splitFrag_fst] at hm1
            obtain ⟨⟨m2, hm2⟩, hm3⟩ := takeWhile_eq_cons _ _ _ _ hm1
            have hae : (!authEnd c) = false :=
              dropWhile_head_neg (fun c => !(authEnd c)) rest c m2 hm2
            have hc : c = '/' := by
              have ha := bnot_eq_false (authEnd c) hae
              have h1 := bnot_eq_true _ hq2
              have h2 := bnot_eq_true _ hm3
              simp only [authEnd, h1, h2, Bool.or_false] at ha
              exact eq_of_beq ha
            refine ⟨cs, ?_⟩
            simp [hc]
      · intro c hc
        by_cases he : (splitQuery (splitFrag (rest.dropWhile fun c => !(authEnd c))).1).1.isEmpty = true
        · rw [if_pos he] at hc
          rcases List.mem_singleton.mp hc with rfl
          exact ⟨by decide, by decide⟩
        · rw [if_neg he, splitQuery_fst] at hc
          have h1 := takeWhile_pred (fun c => !(c == '?')) _ c hc
          have h2 : c ∈ (splitFrag (rest.dropWhile fun c => !(authEnd c))).1 :=
            mem_takeWhile_mem _ _ _ hc
          rw [splitFrag_fst] at h2
          have h3 := takeWhile_pred (fun c => !(c == '#')) _ c h2
          exact ⟨by simpa using h1, by simpa using h3⟩
      · intro q hq c hc
        obtain ⟨y, hy⟩ := splitQuery_snd_some _ _ hq
        have h1 : c ∈ (splitFrag (rest.dropWhile fun c => !(authEnd c))).1 := by
          apply mem_dropWhile (fun c => !(c == '?'))
          rw [hy]
          exact List.mem_cons_of_mem _ hc
        rw [splitFrag_fst] at h1
        have h3 := takeWhile_pred (fun c => !(c == '#')) _ c h1
        simpa using h3

theorem splitPort_fst (auth : List Char) :
    (splitPort auth).1 = auth.takeWhile (fun c => !(c == ':')) := by
  unfold splitPort
  split <;> rfl

theorem splitPort_snd_nil (auth : List Char)
    (h : auth.dropWhile (fun c => !(c == ':')) = []) : (splitPort auth).2 = none := by
  unfold splitPort
  rw [h]

theorem splitPort_snd_cons (auth : List Char) (y : Char) (ps : List Char)
    (h : auth.dropWhile (fun c => !(c == ':')) = y :: ps) : (splitPort auth).2 = some ps := by
  unfold splitPort
  rw [h]

theorem splitFrag_snd_nil (l : List Char)
    (h : l.dropWhile (fun c => !(c == '#')) = []) : (splitFrag l).2 = none := by
  unfold splitFrag
  rw [h]

theorem splitFrag_snd_cons (l : List Char) (y : Char) (f : List Char)
    (h : l.dropWhile (fun c => !(c == '#')) = y :: f) : (splitFrag l).2 = some f := by
  unfold splitFrag
  rw [h]

theorem splitQuery_snd_nil (l : List Char)
    (h : l.dropWhile (fun c => !(c == '?')) = []) : (splitQuery l).2 = none := by
  unfold splitQuery
  rw [h]

theorem splitQuery_snd_cons (l : List Char) (y : Char) (q : List Char)
    (h : l.dropWhile (fun c => !(c == '?')) = y :: q) : (splitQuery l).2 = some q := by
  unfold splitQuery
  rw [h]

theorem takedrop_authEnd_head (L : List Char)
    (h : ∀ c r, L = c :: r → authEnd c = true) :
    L.takeWhile (fun c => !(authEnd c)) = [] ∧
      L.dropWhile (fun c => !(authEnd c)) = L := by
  cases L with
  | nil => simp
  | cons c r =>
    have hc := h c r rfl
    exact ⟨by simp [List.takeWhile, hc], by simp [List.dropWhile, hc]⟩

/-! ## Round trip: parsing a serialized canonical record -/

theorem parse_serialized (sch : Scheme) (host : List Char) (port : Option (List Char))
    (rawPath : List Char) (query frag : Option (List Char)) (pp qp fp : List Char)
    (hpp : pp = portPart port) (hqp : qp = queryPart query) (hfp : fp = fragPart frag)
    (hne : host.isEmpty = false) (hok : host.all isHostChar = true)
    (hpok : portOK port = true)
    (hpnd : ∀ ps, port = some ps → isDefaultPort sch ps = false)
    (hpath : rawPath = [] ∨ ∃ r, rawPath = '/' :: r)
    (hpchars : ∀ c ∈ rawPath, (c == '?') = false ∧ (c == '#') = false)
    (hqchars : ∀ q, query = some q → ∀ c ∈ q, (c == '#') = false) :
    parseList (schemeChars sch ++ ([':', '/', '/'] ++ (host ++ (pp ++ (rawPath ++ (qp ++ fp)))))) =
      some { scheme := sch, host := host, port := port,
             path := if rawPath.isEmpty then ['/'] else rawPath,
             query := query, frag := frag } := by
  have hHostAll : ∀ x ∈ host, isHostChar x = true := List.all_eq_true.mp hok
  have hppAll : ∀ x ∈ pp, (!authEnd x) = true := by
    cases port with
    | none =>
      have h0 : pp = [] := hpp
      subst h0
      intro x hx
      exact absurd hx (by simp)
    | some ps =>
      have h0 : pp = ':' :: ps := hpp
      subst h0
      intro x hx
      rcases List.mem_cons.mp hx with h1 | h1
      · subst h1; decide
      · have hdig : x.isDigit = true := by
          simp only [portOK, Bool.and_eq_true] at hpok
          exact List.all_eq_true.mp hpok.2 x h1
        exact (digit_pred x hdig).1
  have hhpAll : ∀ x ∈ host ++ pp, (!authEnd x) = true := by
    intro x hx
    rcases List.mem_append.mp hx with h1 | h1
    · exact (hostChar_pred x (hHostAll x h1)).1
    · exact hppAll x h1
  have hqpAll : ∀ x ∈ qp, (!(x == '#')) = true := by
    cases query with
    | none =>
      have h0 : qp = [] := hqp
      subst h0
      intro x hx
      exact absurd hx (by simp)
    | some q =>
      have h0 : qp = '?' :: q := hqp
      subst h0
      intro x hx
      rcases List.mem_cons.mp hx with h1 | h1
      · subst h1; decide
      · simp [hqchars q rfl x h1]
  have hrqAll : ∀ x ∈ rawPath ++ qp, (!(x == '#')) = true := by
    intro x hx
    rcases List.mem_append.mp hx with h1 | h1
    · simp [(hpchars x h1).2]
    · exact hqpAll x h1
  have htail := takedrop_authEnd_head (rawPath ++ (qp ++ fp)) (by
    rcases hpath with h0 | ⟨pr, h0⟩
    · subst h0
      simp only [List.nil_append]
      cases query with
      | some q =>
        have h1 : qp = '?' :: q := hqp
        subst h1
        intro c r h
        rw [List.cons_append] at h
        injection h with h2 h3
        subst h2
        decide
      | none =>
        have h1 : qp = [] := hqp
        subst h1
        simp only [List.nil_append]
        cases frag with
        | some f =>
          have h2 : fp = '#' :: f := hfp
          subst h2
          intro c r h
          injection h with h3 h4
          subst h3
          decide
        | none =>
          have h2 : fp = [] := hfp
          subst h2
          intro c r h
          simp at h
    · subst h0
      intro c r h
      rw [List.cons_append] at h
      injection h with h2 h3
      subst h2
      decide)
  have hassoc : host ++ (pp ++ (rawPath ++ (qp ++ fp))) =
      (host ++ pp) ++ (rawPath ++ (qp ++ fp)) := (List.append_assoc _ _ _).symm
  have hA1 : ((host ++ pp) ++ (rawPath ++ (qp ++ fp))).takeWhile (fun c => !(authEnd c)) =
      host ++ pp := by
    rw [takeWhile_append_of_all _ _ _ hhpAll, htail.1, List.append_nil]
  have hA2 : ((host ++ pp) ++ (rawPath ++ (qp ++ fp))).dropWhile (fun c => !(authEnd c)) =
      rawPath ++ (qp ++ fp) := by
    rw [dropWhile_append_of_all _ _ _ hhpAll, htail.2]
  have hHostColon : ∀ x ∈ host, (!(x == ':')) = true :=
    fun x hx => (hostChar_pred x (hHostAll x hx)).2.1
  have hB1 : (host ++ pp).takeWhile (fun c => !(c == ':')) = host := by
    rw [takeWhile_append_of_all _ _ _ hHostColon]
    cases port with
    | none =>
      have h0 : pp = [] := hpp
      subst h0
      simp
    | some ps =>
      have h0 : pp = ':' :: ps := hpp
      subst h0
      simp [List.takeWhile]
  have hB2 : (splitPort (host ++ pp)).2 = port := by
    have hdh : host.dropWhile (fun c => !(c == ':')) = [] :=
      List.dropWhile_eq_nil_iff.mpr hHostColon
    cases port with
    | none =>
      have h0 : pp = [] := hpp
      subst h0
      refine splitPort_snd_nil _ ?_
      simpa using hdh
    | some ps =>
      have h0 : pp = ':' :: ps := hpp
      subst h0
      refine splitPort_snd_cons _ ':' ps ?_
      rw [dropWhile_append_cons_neg _ _ _ _ (by decide), hdh, List.nil_append]
  have hC1 : (rawPath ++ (qp ++ fp)).takeWhile (fun c => !(c == '#')) = rawPath ++ qp := by
    cases frag with
    | none =>
      have h0 : fp = [] := hfp
      subst h0
      rw [List.append_nil]
      exact takeWhile_of_all _ _ hrqAll
    | some f =>
      have h0 : fp = '#' :: f := hfp
      subst h0
      rw [← List.append_assoc, takeWhile_append_of_all _ _ _ hrqAll]
      simp [List.takeWhile]
  have hC2 : (splitFrag (rawPath ++ (qp ++ fp))).2 = frag := by
    cases frag with
    | none =>
      have h0 : fp = [] := hfp
      subst h0
      refine splitFrag_snd_nil _ ?_
      rw [List.append_nil]
      exact List.dropWhile_eq_nil_iff.mpr hrqAll
    | some f =>
      have h0 : fp = '#' :: f := hfp
      subst h0
      refine splitFrag_snd_cons _ '#' f ?_
      rw [← List.append_assoc, dropWhile_append_cons_neg _ _ _ _ (by decide),
        List.dropWhile_eq_nil_iff.mpr hrqAll, List.nil_append]
  have hrpQ : ∀ x ∈ rawPath, (!(x == '?')) = true := by
    intro x hx
    simp [(hpchars x hx).1]
  have hD1 : (rawPath ++ qp).takeWhile (fun c => !(c == '?')) = rawPath := by
    rw [takeWhile_append_of_all _ _ _ hrpQ]
    cases query with
    | none =>
      have h0 : qp = [] := hqp
      subst h0
      simp
    | some q =>
      have h0 : qp = '?' :: q := hqp
      subst h0
      simp [List.takeWhile]
  have hD2 : (splitQuery (rawPath ++ qp)).2 = query := by
    have hdr : rawPath.dropWhile (fun c => !(c == '?')) = [] :=
      List.dropWhile_eq_nil_iff.mpr hrpQ
    cases query with
    | none =>
      have h0 : qp = [] := hqp
      subst h0
      refine splitQuery_snd_nil _ ?_
      simpa using hdr
    | some q =>
      have h0 : qp = '?' :: q := hqp
      subst h0
      refine splitQuery_snd_cons _ '?' q ?_
      rw [dropWhile_append_cons_neg _ _ _ _ (by decide), hdr, List.nil_append]
  have hsd : stripDefault sch port = port := by
    cases port with
    | none => rfl
    | some ps => simp [stripDefault, hpnd ps rfl]
  unfold parseList
  rw [splitScheme_marker]
  dsimp only
  rw [hassoc, hA1, hA2, splitPort_fst, hB1, hB2]
  rw [if_pos (by
    simp only [Bool.and_eq_true]
    exact ⟨⟨by simpa using hne, hok⟩, hpok⟩)]
  rw [splitFrag_fst, hC1, splitQuery_fst, hD1, hC2, hD2, hsd]


theorem parse_serializeList (p : URLModel) (hc : Canon p) :
    parseList (serializeList p) = some p := by
  obtain ⟨sch, host, port, path, query, frag⟩ := p
  obtain ⟨r, hr⟩ := hc.path_cons
  have hr' : path = '/' :: r := hr
  have hpe : path.isEmpty = false := by rw [hr']; rfl
  have h0 := parse_serialized sch host port path query frag
    (portPart port) (queryPart query) (fragPart frag)
    rfl rfl rfl hc.host_ne hc.host_ok hc.port_ok hc.port_nd
    (Or.inr ⟨r, hr'⟩) hc.path_ok hc.query_ok
  rw [hpe] at h0
  simp only [Bool.false_eq_true, if_false] at h0
  simp only [serializeList, List.append_assoc]
  exact h0

theorem Canon_stripFrag (p : URLModel) (hc : Canon p) : Canon { p with frag := none } :=
  ⟨hc.host_ne, hc.host_ok, hc.port_ok, hc.port_nd, hc.path_cons, hc.path_ok, hc.query_ok⟩

theorem serializeList_stripFrag (p : URLModel) :
    serializeList p = serializeList { p with frag := none } ++ fragPart p.frag := by
  obtain ⟨sch, host, port, path, query, frag⟩ := p
  simp [serializeList, fragPart]

/-! ## Idempotence of normalization -/

theorem normalizeUrl_mk (l : List Char) :
    normalizeUrl (String.mk l) =
      match parseList l with
      | none => none
      | some p => some (String.mk (rstripSlashes (serializeList { p with frag := none }))) := rfl

theorem normalizeUrl_via (l : List Char) (p2 : URLModel) (hp : parseList l = some p2)
    (hfrag : { p2 with frag := none } = p2)
    (hfix : rstripSlashes (serializeList p2) = l) :
    normalizeUrl (String.mk l) = some (String.mk l) := by
  rw [normalizeUrl_mk, hp]
  dsimp only
  rw [hfrag, hfix]

theorem normalize_of_rstrip_serialize (p : URLModel) (hc : Canon p) (hf : p.frag = none) :
    normalizeUrl (String.mk (rstripSlashes (serializeList p))) =
      some (String.mk (rstripSlashes (serializeList p))) := by
  obtain ⟨sch, host, port, path, query, frag⟩ := p
  simp only at hf
  subst hf
  have hostne : host ≠ [] := by
    have hne0 := hc.host_ne
    intro h0
    rw [h0] at hne0
    simp at hne0
  have hostns : ∀ c ∈ host, isSlash c = false :=
    fun c hcm => (hostChar_pred c (List.all_eq_true.mp hc.host_ok c hcm)).2.2
  have hostfix : rstripSlashes host = host := rstripSlashes_of_all_neg host hostns
  obtain ⟨pr, hpr0⟩ := hc.path_cons
  have hpr : path = '/' :: pr := hpr0
  have hXfix : rstripSlashes (schemeChars sch ++ [':', '/', '/'] ++ host ++ portPart port) =
      schemeChars sch ++ [':', '/', '/'] ++ host ++ portPart port := by
    cases port with
    | none =>
      simp only [portPart, List.append_nil]
      rw [rstripSlashes_append_of_ne_nil _ _ (by rw [hostfix]; exact hostne), hostfix]
    | some ps =>
      have hpsd : ∀ x ∈ ps, x.isDigit = true := by
        have h1 := hc.port_ok
        simp only [portOK, Bool.and_eq_true] at h1
        exact List.all_eq_true.mp h1.2
      have hpsfix : rstripSlashes (':' :: ps) = ':' :: ps := by
        rw [rstripSlashes_cons_neg ':' ps (by decide),
          rstripSlashes_of_all_neg ps (fun x hx => (digit_pred x (hpsd x hx)).2.2)]
      simp only [portPart]
      rw [rstripSlashes_append_of_ne_nil _ _ (by rw [hpsfix]; simp), hpsfix]
  cases query with
  | some q0 =>
    have hshape : serializeList ⟨sch, host, port, path, some q0, none⟩ =
        schemeChars sch ++ [':', '/', '/'] ++ host ++ portPart port ++ path ++ '?' :: q0 := by
      simp [serializeList, queryPart, fragPart]
    rw [hshape]
    have hq' : rstripSlashes ('?' :: q0) = '?' :: rstripSlashes q0 :=
      rstripSlashes_cons_neg '?' q0 (by decide)
    have hq2' : rstripSlashes ('?' :: rstripSlashes q0) = '?' :: rstripSlashes q0 := by
      rw [rstripSlashes_cons_neg '?' _ (by decide), rstripSlashes_idem]
    have hrs : rstripSlashes (schemeChars sch ++ [':', '/', '/'] ++ host ++ portPart port ++
        path ++ '?' :: q0) =
        schemeChars sch ++ [':', '/', '/'] ++ host ++ portPart port ++ path ++
          '?' :: rstripSlashes q0 := by
      rw [rstripSlashes_append_of_ne_nil _ _ (by rw [hq']; simp), hq']
    rw [hrs]
    have hp2 : Canon ⟨sch, host, port, path, some (rstripSlashes q0), none⟩ := by
      refine ⟨hc.host_ne, hc.host_ok, hc.port_ok, hc.port_nd, hc.path_cons, hc.path_ok, ?_⟩
      intro q hq c hcm
      injection hq with hq1
      subst hq1
      exact hc.query_ok q0 rfl c (mem_rstripSlashes _ _ hcm)
    have hser2 : serializeList ⟨sch, host, port, path, some (rstripSlashes q0), none⟩ =
        schemeChars sch ++ [':', '/', '/'] ++ host ++ portPart port ++ path ++
          '?' :: rstripSlashes q0 := by
      simp [serializeList, queryPart, fragPart]
    refine normalizeUrl_via _ ⟨sch, host, port, path, some (rstripSlashes q0), none⟩ ?_ rfl ?_
    · rw [← hser2]
      exact parse_serializeList _ hp2
    · rw [hser2, rstripSlashes_append_of_ne_nil _ _ (by rw [hq2']; simp), hq2']
  | none =>
    have hshape : serializeList ⟨sch, host, port, path, none, none⟩ =
        schemeChars sch ++ [':', '/', '/'] ++ host ++ portPart port ++ path := by
      simp [serializeList, queryPart, fragPart]
    rw [hshape]
    cases hsp : rstripSlashes path with
    | cons c cs =>
      have hrs : rstripSlashes (schemeChars sch ++ [':', '/', '/'] ++ host ++ portPart port ++
          path) =
          schemeChars sch ++ [':', '/', '/'] ++ host ++ portPart port ++ (c :: cs) := by
        rw [rstripSlashes_append_of_ne_nil _ _ (by rw [hsp]; simp), hsp]
      rw [hrs]
      have hcslash : c = '/' := by
        obtain ⟨k, hk⟩ := rstripSlashes_exists_replicate path
        rw [hsp, hpr] at hk
        injection hk with h1 h2
        exact h1.symm
      have hp2 : Canon ⟨sch, host, port, c :: cs, none, none⟩ := by
        refine ⟨hc.host_ne, hc.host_ok, hc.port_ok, hc.port_nd, ⟨cs, by rw [hcslash]⟩, ?_, ?_⟩
        · intro x hx
          exact hc.path_ok x (mem_rstripSlashes path x (by rw [hsp]; exact hx))
        · intro q hq
          simp at hq
      have hser2 : serializeList ⟨sch, host, port, c :: cs, none, none⟩ =
          schemeChars sch ++ [':', '/', '/'] ++ host ++ portPart port ++ (c :: cs) := by
        simp [serializeList, queryPart, fragPart]
      have hccs : rstripSlashes (c :: cs) = c :: cs := by
        rw [← hsp, rstripSlashes_idem]
      refine normalizeUrl_via _ ⟨sch, host, port, c :: cs, none, none⟩ ?_ rfl ?_
      · rw [← hser2]
        exact parse_serializeList _ hp2
      · rw [hser2, rstripSlashes_append_of_ne_nil _ _ (by rw [hccs]; simp), hccs]
    | nil =>
      have hrs : rstripSlashes (schemeChars sch ++ [':', '/', '/'] ++ host ++ portPart port ++
          path) = schemeChars sch ++ [':', '/', '/'] ++ host ++ portPart port := by
        rw [rstripSlashes_append_of_nil _ _ hsp, hXfix]
      rw [hrs]
      have hser3 : serializeList ⟨sch, host, port, ['/'], none, none⟩ =
          (schemeChars sch ++ [':', '/', '/'] ++ host ++ portPart port) ++ ['/'] := by
        simp [serializeList, queryPart, fragPart]
      refine normalizeUrl_via _ ⟨sch, host, port, ['/'], none, none⟩ ?_ rfl ?_
      · have h1 := parse_serialized sch host port [] none none
          (portPart port) [] [] rfl rfl rfl hc.host_ne hc.host_ok hc.port_ok hc.port_nd
          (Or.inl rfl) (by intro c hcm; simp at hcm) (by intro q hq; simp at hq)
        simp only [List.append_nil, List.nil_append, List.isEmpty_nil, if_true] at h1
        rw [← List.append_assoc, ← List.append_assoc] at h1
        exact h1
      · rw [hser3, rstripSlashes_append_of_nil _ _ (by rfl), hXfix]

/-! ## Helper: idempotence at the top level -/

theorem normalizeUrl_idem (raw out : String) (h : normalizeUrl raw = some out) :
    normalizeUrl out = some out := by
  unfold normalizeUrl at h
  cases hp : parseList raw.data with
  | none => rw [hp] at h; simp at h
  | some p =>
    rw [hp] at h
    simp only at h
    injection h with h1
    subst h1
    exact normalize_of_rstrip_serialize { p with frag := none }
      (Canon_stripFrag p (parse_canon _ _ hp)) rfl



theorem crawlLoop_nil (fetch : String → FetchOutcome) (origin : URLModel) (o : CrawlOpts)
    (visited : List String) (pages : List CrawlPage) :
    crawlLoop fetch origin o [] visited pages = pages := by
  rw [crawlLoop]

theorem crawlLoop_stop (fetch : String → FetchOutcome) (origin : URLModel) (o : CrawlOpts)
    (url : String) (depth : Nat) (rest : List (String × Nat))
    (visited : List String) (pages : List CrawlPage)
    (h : ¬(pages.length < o.maxPages)) :
    crawlLoop fetch origin o ((url, depth) :: rest) visited pages = pages := by
  rw [crawlLoop]
  rw [dif_neg h]

theorem crawlLoop_skip_invalid (fetch : String → FetchOutcome) (origin : URLModel)
    (o : CrawlOpts) (url : String) (depth : Nat) (rest : List (String × Nat))
    (visited : List String) (pages : List CrawlPage)
    (h1 : pages.length < o.maxPages) (h2 : normalizeUrl url = none) :
    crawlLoop fetch origin o ((url, depth) :: rest) visited pages =
      crawlLoop fetch origin o rest visited pages := by
  rw [crawlLoop, dif_pos h1]
  simp only [h2]

theorem crawlLoop_skip_visited (fetch : String → FetchOutcome) (origin : URLModel)
    (o : CrawlOpts) (url : String) (depth : Nat) (rest : List (String × Nat))
    (visited : List String) (pages : List CrawlPage) (normalized : String)
    (h1 : pages.length < o.maxPages) (h2 : normalizeUrl url = some normalized)
    (h3 : visited.contains normalized = true) :
    crawlLoop fetch origin o ((url, depth) :: rest) visited pages =
      crawlLoop fetch origin o rest visited pages := by
  rw [crawlLoop, dif_pos h1]
  simp only [h2, h3, if_true]

theorem crawlLoop_failure_step (fetch : String → FetchOutcome) (origin : URLModel)
    (o : CrawlOpts) (url : String) (depth : Nat) (rest : List (String × Nat))
    (visited : List String) (pages : List CrawlPage) (normalized reason : String)
    (h1 : pages.length < o.maxPages) (h2 : normalizeUrl url = some normalized)
    (h3 : visited.contains normalized = false) (h4 : fetch normalized = FetchOutcome.failure reason) :
    crawlLoop fetch origin o ((url, depth) :: rest) visited pages =
      crawlLoop fetch origin o rest (normalized :: visited)
        (pages ++ [{ url := normalized, status := none, title := none, description := none,
                     links := [], error := some reason }]) := by
  rw [crawlLoop, dif_pos h1]
  simp only [h2, h3, h4, Bool.false_eq_true, if_false]

theorem crawlLoop_nonhtml_step (fetch : String → FetchOutcome) (origin : URLModel)
    (o : CrawlOpts) (url : String) (depth : Nat) (rest : List (String × Nat))
    (visited : List String) (pages : List CrawlPage) (normalized : String) (d : PageData)
    (h1 : pages.length < o.maxPages) (h2 : normalizeUrl url = some normalized)
    (h3 : visited.contains normalized = false) (h4 : fetch normalized = FetchOutcome.success d)
    (h5 : includesHtml d.contentType = false) :
    crawlLoop fetch origin o ((url, depth) :: rest) visited pages =
      crawlLoop fetch origin o rest (normalized :: visited)
        (pages ++ [{ url := normalized, status := some d.status, title := none,
                     description := none, links := [],
                     error := some "Skipped non-HTML response" }]) := by
  rw [crawlLoop, dif_pos h1]
  simp only [h2, h3, h4, h5, Bool.false_eq_true, if_false]

theorem crawlLoop_html_step (fetch : String → FetchOutcome) (origin : URLModel)
    (o : CrawlOpts) (url : String) (depth : Nat) (rest : List (String × Nat))
    (visited : List String) (pages : List CrawlPage) (normalized : String) (d : PageData)
    (h1 : pages.length < o.maxPages) (h2 : normalizeUrl url = some normalized)
    (h3 : visited.contains normalized = false) (h4 : fetch normalized = FetchOutcome.success d)
    (h5 : includesHtml d.contentType = true) :
    crawlLoop fetch origin o ((url, depth) :: rest) visited pages =
      crawlLoop fetch origin o
        (if depth + 1 ≤ o.maxDepth then
          rest ++ ((computeLinks d.hrefs normalized).filter (fun l =>
            !l.isEmpty && (!o.sameDomain || isSameDomain l origin) &&
              !((normalized :: visited).contains l))).map (fun l => (l, depth + 1))
         else rest)
        (normalized :: visited)
        (pages ++ [{ url := normalized, status := some d.status,
                     title := strOrNone d.titleText,
                     description := orUndef (d.metaName "description"),
                     links := computeLinks d.hrefs normalized, error := none }]) := by
  rw [crawlLoop, dif_pos h1]
  simp only [h2, h3, h4, h5, Bool.false_eq_true, if_false, if_true]


/-! ## Crawl loop invariants -/

theorem crawlLoop_length_le (fetch : String → FetchOutcome) (origin : URLModel)
    (o : CrawlOpts) (queue : List (String × Nat)) (visited : List String)
    (pages : List CrawlPage) :
    pages.length ≤ o.maxPages →
      (crawlLoop fetch origin o queue visited pages).length ≤ o.maxPages := by
  induction queue, visited, pages using crawlLoop.induct fetch origin o with
  | case1 visited pages =>
    intro h
    rw [crawlLoop_nil]
    exact h
  | case2 url depth rest visited pages hlt hnorm ih =>
    intro h
    rw [crawlLoop_skip_invalid _ _ _ _ _ _ _ _ hlt hnorm]
    exact ih h
  | case3 url depth rest visited pages hlt s hnorm hvis ih =>
    intro h
    rw [crawlLoop_skip_visited _ _ _ _ _ _ _ _ _ hlt hnorm hvis]
    exact ih h
  | case4 url depth rest visited pages hlt s hnorm hvis reason hfail ih =>
    intro h
    rw [crawlLoop_failure_step _ _ _ _ _ _ _ _ _ _ hlt hnorm (by simpa using hvis) hfail]
    exact ih (by simp only [List.length_append, List.length_cons, List.length_nil]; omega)
  | case5 url depth rest visited pages hlt s hnorm hvis d hfetch hhtml links page visited' queue' ih =>
    intro h
    rw [crawlLoop_html_step _ _ _ _ _ _ _ _ _ _ hlt hnorm (by simpa using hvis) hfetch hhtml]
    exact ih (by simp only [List.length_append, List.length_cons, List.length_nil]; omega)
  | case6 url depth rest visited pages hlt s hnorm hvis d hfetch hhtml ih =>
    intro h
    rw [crawlLoop_nonhtml_step _ _ _ _ _ _ _ _ _ _ hlt hnorm (by simpa using hvis) hfetch
      (by simpa using hhtml)]
    exact ih (by simp only [List.length_append, List.length_cons, List.length_nil]; omega)
  | case7 url depth rest visited pages hstop =>
    intro h
    rw [crawlLoop_stop _ _ _ _ _ _ _ _ hstop]
    exact h

theorem nodup_append_singleton {α : Type} (l : List α) (a : α)
    (h1 : l.Nodup) (h2 : a ∉ l) : (l ++ [a]).Nodup := by
  rw [List.nodup_append]
  exact ⟨h1, List.nodup_singleton a, by
    intro x hx hx2
    rcases List.mem_singleton.mp hx2 with rfl
    exact h2 hx⟩

theorem crawlLoop_nodup (fetch : String → FetchOutcome) (origin : URLModel)
    (o : CrawlOpts) (queue : List (String × Nat)) (visited : List String)
    (pages : List CrawlPage) :
    (∀ u ∈ visited, normalizeUrl u = some u) →
    (∀ p ∈ pages, p.url ∈ visited) →
    (pages.map CrawlPage.url).Nodup →
    ((crawlLoop fetch origin o queue visited pages).map CrawlPage.url).Nodup ∧
      (∀ p ∈ crawlLoop fetch origin o queue visited pages,
        normalizeUrl p.url = some p.url) := by
  induction queue, visited, pages using crawlLoop.induct fetch origin o with
  | case1 visited pages =>
    intro h1 h2 h3
    rw [crawlLoop_nil]
    exact ⟨h3, fun p hp => h1 p.url (h2 p hp)⟩
  | case2 url depth rest visited pages hlt hnorm ih =>
    intro h1 h2 h3
    rw [crawlLoop_skip_invalid _ _ _ _ _ _ _ _ hlt hnorm]
    exact ih h1 h2 h3
  | case3 url depth rest visited pages hlt s hnorm hvis ih =>
    intro h1 h2 h3
    rw [crawlLoop_skip_visited _ _ _ _ _ _ _ _ _ hlt hnorm hvis]
    exact ih h1 h2 h3
  | case4 url depth rest visited pages hlt s hnorm hvis reason hfail ih =>
    intro h1 h2 h3
    rw [crawlLoop_failure_step _ _ _ _ _ _ _ _ _ _ hlt hnorm (by simpa using hvis) hfail]
    refine ih ?_ ?_ ?_
    · intro u hu
      rcases List.mem_cons.mp hu with rfl | hu2
      · exact normalizeUrl_idem url u hnorm
      · exact h1 u hu2
    · intro p hp
      rcases List.mem_append.mp hp with hp1 | hp1
      · exact List.mem_cons_of_mem _ (h2 p hp1)
      · rcases List.mem_singleton.mp hp1 with rfl
        exact List.mem_cons_self _ _
    · rw [List.map_append]
      refine nodup_append_singleton _ _ h3 ?_
      intro hmem
      rcases List.mem_map.mp hmem with ⟨p, hp, hpu⟩
      have hs : p.url = s := hpu
      have hm : s ∈ visited := by rw [← hs]; exact h2 p hp
      exact hvis (List.elem_eq_true_of_mem hm)
  | case5 url depth rest visited pages hlt s hnorm hvis d hfetch hhtml links page visited' queue' ih =>
    intro h1 h2 h3
    rw [crawlLoop_html_step _ _ _ _ _ _ _ _ _ _ hlt hnorm (by simpa using hvis) hfetch hhtml]
    refine ih ?_ ?_ ?_
    · intro u hu
      rcases List.mem_cons.mp hu with rfl | hu2
      · exact normalizeUrl_idem url u hnorm
      · exact h1 u hu2
    · intro p hp
      rcases List.mem_append.mp hp with hp1 | hp1
      · exact List.mem_cons_of_mem _ (h2 p hp1)
      · rcases List.mem_singleton.mp hp1 with rfl
        exact List.mem_cons_self _ _
    · rw [List.map_append]
      refine nodup_append_singleton _ _ h3 ?_
      intro hmem
      rcases List.mem_map.mp hmem with ⟨p, hp, hpu⟩
      have hs : p.url = s := hpu
      have hm : s ∈ visited := by rw [← hs]; exact h2 p hp
      exact hvis (List.elem_eq_true_of_mem hm)
  | case6 url depth rest visited pages hlt s hnorm hvis d hfetch hhtml ih =>
    intro h1 h2 h3
    rw [crawlLoop_nonhtml_step _ _ _ _ _ _ _ _ _ _ hlt hnorm (by simpa using hvis) hfetch
      (by simpa using hhtml)]
    refine ih ?_ ?_ ?_
    · intro u hu
      rcases List.mem_cons.mp hu with rfl | hu2
      · exact normalizeUrl_idem url u hnorm
      · exact h1 u hu2
    · intro p hp
      rcases List.mem_append.mp hp with hp1 | hp1
      · exact List.mem_cons_of_mem _ (h2 p hp1)
      · rcases List.mem_singleton.mp hp1 with rfl
        exact List.mem_cons_self _ _
    · rw [List.map_append]
      refine nodup_append_singleton _ _ h3 ?_
      intro hmem
      rcases List.mem_map.mp hmem with ⟨p, hp, hpu⟩
      have hs : p.url = s := hpu
      have hm : s ∈ visited := by rw [← hs]; exact h2 p hp
      exact hvis (List.elem_eq_true_of_mem hm)
  | case7 url depth rest visited pages hstop =>
    intro h1 h2 h3
    rw [crawlLoop_stop _ _ _ _ _ _ _ _ hstop]
    exact ⟨h3, fun p hp => h1 p.url (h2 p hp)⟩

theorem crawlLoop_classified (fetch : String → FetchOutcome) (origin : URLModel)
    (o : CrawlOpts) (queue : List (String × Nat)) (visited : List String)
    (pages : List CrawlPage) :
    (∀ p ∈ pages, reportConsistent fetch p) →
      ∀ p ∈ crawlLoop fetch origin o queue visited pages, reportConsistent fetch p := by
  induction queue, visited, pages using crawlLoop.induct fetch origin o with
  | case1 visited pages =>
    intro h
    rw [crawlLoop_nil]
    exact h
  | case2 url depth rest visited pages hlt hnorm ih =>
    intro h
    rw [crawlLoop_skip_invalid _ _ _ _ _ _ _ _ hlt hnorm]
    exact ih h
  | case3 url depth rest visited pages hlt s hnorm hvis ih =>
    intro h
    rw [crawlLoop_skip_visited _ _ _ _ _ _ _ _ _ hlt hnorm hvis]
    exact ih h
  | case4 url depth rest visited pages hlt s hnorm hvis reason hfail ih =>
    intro h
    rw [crawlLoop_failure_step _ _ _ _ _ _ _ _ _ _ hlt hnorm (by simpa using hvis) hfail]
    refine ih ?_
    intro p hp
    rcases List.mem_append.mp hp with hp1 | hp1
    · exact h p hp1
    · rcases List.mem_singleton.mp hp1 with rfl
      constructor
      · intro r hr
        have hru : fetch s = FetchOutcome.failure r := hr
        rw [hfail] at hru
        injection hru with h1
        subst h1
        exact ⟨rfl, rfl, rfl, rfl, rfl⟩
      · intro d hd
        have hdu : fetch s = FetchOutcome.success d := hd
        rw [hfail] at hdu
        exact absurd hdu (by simp)
  | case5 url depth rest visited pages hlt s hnorm hvis d hfetch hhtml links page visited' queue' ih =>
    intro h
    rw [crawlLoop_html_step _ _ _ _ _ _ _ _ _ _ hlt hnorm (by simpa using hvis) hfetch hhtml]
    refine ih ?_
    intro p hp
    rcases List.mem_append.mp hp with hp1 | hp1
    · exact h p hp1
    · rcases List.mem_singleton.mp hp1 with rfl
      constructor
      · intro r hr
        have hru : fetch s = FetchOutcome.failure r := hr
        rw [hfetch] at hru
        exact absurd hru (by simp)
      · intro d2 hd2
        have hdu : fetch s = FetchOutcome.success d2 := hd2
        rw [hfetch] at hdu
        injection hdu with h1
        subst h1
        refine ⟨rfl, fun _ => ⟨rfl, rfl, rfl, rfl⟩, fun hnh => ?_⟩
        rw [hhtml] at hnh
        exact absurd hnh (by simp)
  | case6 url depth rest visited pages hlt s hnorm hvis d hfetch hhtml ih =>
    intro h
    rw [crawlLoop_nonhtml_step _ _ _ _ _ _ _ _ _ _ hlt hnorm (by simpa using hvis) hfetch
      (by simpa using hhtml)]
    refine ih ?_
    intro p hp
    rcases List.mem_append.mp hp with hp1 | hp1
    · exact h p hp1
    · rcases List.mem_singleton.mp hp1 with rfl
      constructor
      · intro r hr
        have hru : fetch s = FetchOutcome.failure r := hr
        rw [hfetch] at hru
        exact absurd hru (by simp)
      · intro d2 hd2
        have hdu : fetch s = FetchOutcome.success d2 := hd2
        rw [hfetch] at hdu
        injection hdu with h1
        subst h1
        refine ⟨rfl, fun hh => ?_, fun _ => ⟨rfl, rfl, rfl, rfl⟩⟩
        rw [hh] at hhtml
        exact absurd rfl hhtml
  | case7 url depth rest visited pages hstop =>
    intro h
    rw [crawlLoop_stop _ _ _ _ _ _ _ _ hstop]
    exact h

theorem pageLinks_html (fetch : String → FetchOutcome) (s : String) (d : PageData)
    (h : fetch s = FetchOutcome.success d) (hh : includesHtml d.contentType = true) :
    pageLinks fetch s = computeLinks d.hrefs s := by
  unfold pageLinks
  rw [h]
  simp [hh]

theorem crawlLoop_reach (fetch : String → FetchOutcome) (origin : URLModel)
    (o : CrawlOpts) (startUrl : String) (queue : List (String × Nat))
    (visited : List String) (pages : List CrawlPage) :
    (∀ e ∈ queue, e.2 ≤ o.maxDepth ∧
      ∀ n, normalizeUrl e.1 = some n → Reaches fetch startUrl e.2 n) →
    (∀ p ∈ pages, ∃ d, d ≤ o.maxDepth ∧ Reaches fetch startUrl d p.url) →
    ∀ p ∈ crawlLoop fetch origin o queue visited pages,
      ∃ d, d ≤ o.maxDepth ∧ Reaches fetch startUrl d p.url := by
  induction queue, visited, pages using crawlLoop.induct fetch origin o with
  | case1 visited pages =>
    intro hq hp
    rw [crawlLoop_nil]
    exact hp
  | case2 url depth rest visited pages hlt hnorm ih =>
    intro hq hp
    rw [crawlLoop_skip_invalid _ _ _ _ _ _ _ _ hlt hnorm]
    exact ih (fun e he => hq e (List.mem_cons_of_mem _ he)) hp
  | case3 url depth rest visited pages hlt s hnorm hvis ih =>
    intro hq hp
    rw [crawlLoop_skip_visited _ _ _ _ _ _ _ _ _ hlt hnorm hvis]
    exact ih (fun e he => hq e (List.mem_cons_of_mem _ he)) hp
  | case4 url depth rest visited pages hlt s hnorm hvis reason hfail ih =>
    intro hq hp
    rw [crawlLoop_failure_step _ _ _ _ _ _ _ _ _ _ hlt hnorm (by simpa using hvis) hfail]
    refine ih (fun e he => hq e (List.mem_cons_of_mem _ he)) ?_
    intro p hpm
    rcases List.mem_append.mp hpm with h1 | h1
    · exact hp p h1
    · rcases List.mem_singleton.mp h1 with rfl
      exact ⟨depth, (hq (url, depth) (List.mem_cons_self _ _)).1, (hq (url, depth) (List.mem_cons_self _ _)).2 s hnorm⟩
  | case5 url depth rest visited pages hlt s hnorm hvis d hfetch hhtml links page visited' queue' ih =>
    intro hq hp
    rw [crawlLoop_html_step _ _ _ _ _ _ _ _ _ _ hlt hnorm (by simpa using hvis) hfetch hhtml]
    have hreach : Reaches fetch startUrl depth s := (hq (url, depth) (List.mem_cons_self _ _)).2 s hnorm
    refine ih ?_ ?_
    · intro e he
      unfold queue' at he
      by_cases hdep : depth + 1 ≤ o.maxDepth
      · rw [dif_pos hdep] at he
        rcases List.mem_append.mp he with h1 | h1
        · exact hq e (List.mem_cons_of_mem _ h1)
        · rcases List.mem_map.mp h1 with ⟨l, hl, rfl⟩
          unfold links at hl
          have hlinks : l ∈ computeLinks d.hrefs s := (List.mem_filter.mp hl).1
          refine ⟨hdep, ?_⟩
          intro n hn
          exact Reaches.step depth s l n hreach
            (by rw [pageLinks_html fetch s d hfetch hhtml]; exact hlinks) hn
      · rw [dif_neg hdep] at he
        exact hq e (List.mem_cons_of_mem _ he)
    · intro p hpm
      rcases List.mem_append.mp hpm with h1 | h1
      · exact hp p h1
      · rcases List.mem_singleton.mp h1 with rfl
        exact ⟨depth, (hq (url, depth) (List.mem_cons_self _ _)).1, hreach⟩
  | case6 url depth rest visited pages hlt s hnorm hvis d hfetch hhtml ih =>
    intro hq hp
    rw [crawlLoop_nonhtml_step _ _ _ _ _ _ _ _ _ _ hlt hnorm (by simpa using hvis) hfetch
      (by simpa using hhtml)]
    refine ih (fun e he => hq e (List.mem_cons_of_mem _ he)) ?_
    intro p hpm
    rcases List.mem_append.mp hpm with h1 | h1
    · exact hp p h1
    · rcases List.mem_singleton.mp h1 with rfl
      exact ⟨depth, (hq (url, depth) (List.mem_cons_self _ _)).1, (hq (url, depth) (List.mem_cons_self _ _)).2 s hnorm⟩
  | case7 url depth rest visited pages hstop =>
    intro hq hp
    rw [crawlLoop_stop _ _ _ _ _ _ _ _ hstop]
    exact hp

/-! ## Concrete crawl evaluations -/

theorem crawlLoop_congr (fetch : String → FetchOutcome) (origin : URLModel) (o : CrawlOpts)
    (q' : List (String × Nat)) (v' : List String) (p' : List CrawlPage)
    {q : List (String × Nat)} {v : List String} {p : List CrawlPage}
    (hq : q = q') (hv : v = v') (hp : p = p') :
    crawlLoop fetch origin o q v p = crawlLoop fetch origin o q' v' p' := by
  rw [hq, hv, hp]

theorem crawl_eq_loop (fetch : String → FetchOutcome) (startUrl : String) (o : CrawlOpts)
    (origin : URLModel) (h : parseList startUrl.data = some origin) :
    crawl fetch startUrl o = some (crawlLoop fetch origin o [(startUrl, 0)] [] []) := by
  unfold crawl
  rw [h]

theorem crawl_inv (fetch : String → FetchOutcome) (startUrl : String) (o : CrawlOpts)
    (pages : List CrawlPage) (h : crawl fetch startUrl o = some pages) :
    ∃ origin, parseList startUrl.data = some origin ∧
      pages = crawlLoop fetch origin o [(startUrl, 0)] [] [] := by
  unfold crawl at h
  cases hp : parseList startUrl.data with
  | none => rw [hp] at h; simp at h
  | some origin =>
    rw [hp] at h
    simp only at h
    injection h with h1
    exact ⟨origin, rfl, h1.symm⟩

theorem evalTimeout : crawl fetchTimeout "http://a.com" ⟨5, 1, true⟩ = some [timeoutPage] := by
  rw [crawl_eq_loop fetchTimeout "http://a.com" ⟨5, 1, true⟩ originA (by decide)]
  rw [crawlLoop_failure_step _ _ _ _ _ _ _ _ "http://a.com" "timeout of 10000ms exceeded"
    (by decide) (by decide) (by decide) rfl]
  rw [crawlLoop_nil]
  rfl

theorem evalTwoPages :
    crawl fetchTwoPages "http://a.com" ⟨5, 1, true⟩ = some [pgA, pgY] := by
  rw [crawl_eq_loop fetchTwoPages "http://a.com" ⟨5, 1, true⟩ originA (by decide)]
  have s1 : crawlLoop fetchTwoPages originA ⟨5, 1, true⟩ [("http://a.com", 0)] [] [] =
      [pgA, pgY] := by
    refine Eq.trans (crawlLoop_html_step _ _ _ _ _ _ _ _ "http://a.com" pageA
      (by decide) (by decide) (by decide) rfl (by decide)) ?_
    refine Eq.trans (crawlLoop_congr fetchTwoPages originA ⟨5, 1, true⟩
      [("http://a.com/y", 1)] ["http://a.com"] [pgA] (by decide) (by decide) (by decide)) ?_
    refine Eq.trans (crawlLoop_html_step _ _ _ _ _ _ _ _ "http://a.com/y" pageY
      (by decide) (by decide) (by decide) rfl (by decide)) ?_
    refine Eq.trans (crawlLoop_congr fetchTwoPages originA ⟨5, 1, true⟩
      [] ["http://a.com/y", "http://a.com"] [pgA, pgY] (by decide) (by decide) (by decide)) ?_
    exact crawlLoop_nil _ _ _ _ _
  rw [s1]

theorem axiosGet_netTwoPages : axiosGet netTwoPages = fetchTwoPages := by
  funext u
  unfold axiosGet netTwoPages fetchTwoPages
  by_cases h1 : (u == "http://a.com") = true
  · simp [h1, pageA, validateStatus]
  · by_cases h2 : (u == "http://a.com/y") = true
    · simp [h1, h2, pageY, validateStatus]
    · simp [h1, h2]

/-! ## Claim theorems -/

/-- C1: for all valid CrawlRequests, with maxPages clamped to the range
1..20 by the endpoint, the crawl operation returns a pages list whose
length is at most maxPages; the loop accumulates reports until the
frontier empties or the count reaches maxPages and then returns whatever
reports were accumulated, so reaching exactly maxPages is not an
error. -/
theorem crawl_pages_bounded_by_maxPages (fetch : String → FetchOutcome) (startUrl : String)
    (mp : Int) (md : Nat) (sd : Bool) (pages : List CrawlPage)
    (h : crawl fetch startUrl ⟨safeMaxPages mp, md, sd⟩ = some pages) :
    pages.length ≤ safeMaxPages mp ∧ 1 ≤ safeMaxPages mp ∧ safeMaxPages mp ≤ 20 := by
  refine ⟨?_, ?_, ?_⟩
  · obtain ⟨origin, hp, rfl⟩ := crawl_inv _ _ _ _ h
    exact crawlLoop_length_le _ _ _ _ _ _ (by simp)
  · unfold safeMaxPages
    split <;> omega
  · unfold safeMaxPages
    split <;> omega

/-- C1 witness: a crawl whose seed fetch times out returns one report,
within the clamped bound for a requested maxPages of 5. -/
theorem crawl_pages_bounded_by_maxPages_witness :
    ([timeoutPage] : List CrawlPage).length ≤ safeMaxPages 5 ∧
      1 ≤ safeMaxPages 5 ∧ safeMaxPages 5 ≤ 20 :=
  crawl_pages_bounded_by_maxPages fetchTimeout "http://a.com" 5 1 true [timeoutPage]
    (by rw [show (⟨safeMaxPages 5, 1, true⟩ : CrawlOpts) = ⟨5, 1, true⟩ from by decide]
        exact evalTimeout)

/-- C2: in any CrawlResult no two PageReports share the same normalized
url: every report's url is a fixed point of normalization, and the url
list is duplicate-free, because a URL is inserted into the Visited set
before it is fetched and frontier entries whose normalized form is
already in Visited are discarded without emitting a report. -/
theorem crawl_reports_dedup (fetch : String → FetchOutcome) (startUrl : String)
    (o : CrawlOpts) (pages : List CrawlPage) (h : crawl fetch startUrl o = some pages) :
    (pages.map CrawlPage.url).Nodup ∧ ∀ p ∈ pages, normalizeUrl p.url = some p.url := by
  obtain ⟨origin, hp, rfl⟩ := crawl_inv _ _ _ _ h
  exact crawlLoop_nodup _ _ _ _ _ _ (by intro u hu; simp at hu)
    (by intro p hpm; simp at hpm) (by simp)

/-- C2 witness: the two-page crawl emits two reports with distinct
normalized urls. -/
theorem crawl_reports_dedup_witness :
    (([pgA, pgY] : List CrawlPage).map CrawlPage.url).Nodup ∧
      ∀ p ∈ ([pgA, pgY] : List CrawlPage), normalizeUrl p.url = some p.url :=
  crawl_reports_dedup fetchTwoPages "http://a.com" ⟨5, 1, true⟩ [pgA, pgY] evalTwoPages

/-- C3: a per-page fetch failure is recovered into data: the loop
appends a PageReport carrying that url and the error reason, with no
status, no extracted fields and no links, enqueues no successors, and
continues with the remaining frontier; the equation shows the failure
never aborts the crawl or escapes as a thrown fault. -/
theorem crawl_fetch_failure_recovered (fetch : String → FetchOutcome) (origin : URLModel)
    (o : CrawlOpts) (url : String) (depth : Nat) (rest : List (String × Nat))
    (visited : List String) (pages : List CrawlPage) (normalized reason : String)
    (h1 : pages.length < o.maxPages) (h2 : normalizeUrl url = some normalized)
    (h3 : visited.contains normalized = false)
    (h4 : fetch normalized = FetchOutcome.failure reason) :
    crawlLoop fetch origin o ((url, depth) :: rest) visited pages =
      crawlLoop fetch origin o rest (normalized :: visited)
        (pages ++ [{ url := normalized, status := none, title := none, description := none,
                     links := [], error := some reason }]) :=
  crawlLoop_failure_step fetch origin o url depth rest visited pages normalized reason
    h1 h2 h3 h4

/-- C3 witness: the timing-out seed produces exactly the failure report
and the loop continues on the (empty) remaining frontier. -/
theorem crawl_fetch_failure_recovered_witness :
    crawlLoop fetchTimeout originA ⟨3, 1, true⟩ [("http://a.com", 0)] [] [] =
      crawlLoop fetchTimeout originA ⟨3, 1, true⟩ [] ["http://a.com"]
        ([] ++ [timeoutPage]) :=
  crawl_fetch_failure_recovered fetchTimeout originA ⟨3, 1, true⟩ "http://a.com" 0 [] [] []
    "http://a.com" "timeout of 10000ms exceeded" (by decide) (by decide) (by decide) rfl

/-- C4 counterexample: a received HTTP response is not always treated as
a success with its status recorded: the network delivers an HTML
response with status 404, yet the default axios validateStatus rejects
it and the crawl emits an error report with no status. -/
theorem crawl_received_404_reported_as_error :
    netNotFound "http://a.com" = NetOutcome.response page404 ∧
    page404.status = 404 ∧
    crawl (axiosGet netNotFound) "http://a.com" ⟨5, 1, true⟩ =
      some [{ url := "http://a.com", status := none, title := none, description := none,
              links := [], error := some "Request failed with status code 404" }] := by
  refine ⟨rfl, rfl, ?_⟩
  rw [crawl_eq_loop (axiosGet netNotFound) "http://a.com" ⟨5, 1, true⟩ originA (by decide)]
  rw [crawlLoop_failure_step _ _ _ _ _ _ _ _ "http://a.com"
    "Request failed with status code 404" (by decide) (by decide) (by decide) rfl]
  rw [crawlLoop_nil]
  rfl

/-- C4 amended: the per-page fetch classifies a page as failed on
transport failures and on every received response whose status fails the
default axios validateStatus (non-2xx): such a response is rejected into
the catch path and reported as an error with no status recorded; a
received 2xx response is a success whose HTTP status is recorded, with
extraction run whenever the content type contains the text/html
marker. -/
theorem crawl_axios_response_classification (net : String → NetOutcome) (startUrl : String)
    (o : CrawlOpts) (pages : List CrawlPage)
    (h : crawl (axiosGet net) startUrl o = some pages) :
    ∀ p ∈ pages,
      (∀ r, net p.url = NetOutcome.transportError r →
        p.status = none ∧ p.title = none ∧ p.description = none ∧
        p.links = [] ∧ p.error = some r) ∧
      (∀ d : PageData, net p.url = NetOutcome.response d →
        (validateStatus d.status = false →
          p.status = none ∧ p.title = none ∧ p.description = none ∧ p.links = [] ∧
          p.error = some ("Request failed with status code " ++ toString d.status)) ∧
        (validateStatus d.status = true →
          p.status = some d.status ∧
          (includesHtml d.contentType = true →
            p.error = none ∧ p.title = strOrNone d.titleText ∧
            p.description = orUndef (d.metaName "description") ∧
            p.links = computeLinks d.hrefs p.url) ∧
          (includesHtml d.contentType = false →
            p.error = some "Skipped non-HTML response" ∧ p.title = none ∧
            p.description = none ∧ p.links = []))) := by
  obtain ⟨origin, hp, rfl⟩ := crawl_inv _ _ _ _ h
  intro p hpm
  have hrc := crawlLoop_classified (axiosGet net) origin o [(startUrl, 0)] [] []
    (by intro q hq; simp at hq) p hpm
  refine ⟨?_, ?_⟩
  · intro r hr
    exact hrc.1 r (by unfold axiosGet; rw [hr])
  · intro d hd
    refine ⟨?_, ?_⟩
    · intro hv
      exact hrc.1 _ (by unfold axiosGet; rw [hd]; simp [hv])
    · intro hv
      exact hrc.2 d (by unfold axiosGet; rw [hd]; simp [hv])

/-- C4 witness: the start page of the two-page site is a delivered 200
response, so its status is recorded and its HTML content type ran
extraction. -/
theorem crawl_axios_response_classification_witness :
    (validateStatus pageA.status = false →
      pgA.status = none ∧ pgA.title = none ∧ pgA.description = none ∧ pgA.links = [] ∧
      pgA.error = some ("Request failed with status code " ++ toString pageA.status)) ∧
    (validateStatus pageA.status = true →
      pgA.status = some pageA.status ∧
      (includesHtml pageA.contentType = true →
        pgA.error = none ∧ pgA.title = strOrNone pageA.titleText ∧
        pgA.description = orUndef (pageA.metaName "description") ∧
        pgA.links = computeLinks pageA.hrefs pgA.url) ∧
      (includesHtml pageA.contentType = false →
        pgA.error = some "Skipped non-HTML response" ∧ pgA.title = none ∧
        pgA.description = none ∧ pgA.links = [])) :=
  (crawl_axios_response_classification netTwoPages "http://a.com" ⟨5, 1, true⟩ [pgA, pgY]
    (by rw [axiosGet_netTwoPages]; exact evalTwoPages) pgA (by decide)).2 pageA rfl

/-- C5: no fetched page lies deeper than maxDepth: every report's url is
reachable from the start URL through at most maxDepth link steps, so a
URL reachable only via longer paths never appears in the pages list;
successors are enqueued only when the current depth plus one is at most
maxDepth. -/
theorem crawl_depth_invariant (fetch : String → FetchOutcome) (startUrl : String)
    (o : CrawlOpts) (pages : List CrawlPage) (h : crawl fetch startUrl o = some pages) :
    ∀ p ∈ pages, ∃ d, d ≤ o.maxDepth ∧ Reaches fetch startUrl d p.url := by
  obtain ⟨origin, hp, rfl⟩ := crawl_inv _ _ _ _ h
  refine crawlLoop_reach _ _ _ _ _ _ _ ?_ (by intro q hq; simp at hq)
  intro e he
  rcases List.mem_singleton.mp he with rfl
  exact ⟨Nat.zero_le _, fun n hn => Reaches.start n hn⟩

/-- C5 witness: the successor page of the two-page site is reachable
within the depth bound 1. -/
theorem crawl_depth_invariant_witness :
    ∃ d, d ≤ 1 ∧ Reaches fetchTwoPages "http://a.com" d pgY.url :=
  crawl_depth_invariant fetchTwoPages "http://a.com" ⟨5, 1, true⟩ [pgA, pgY]
    evalTwoPages pgY (by decide)

/-- C6: a crawled page whose response content type does not contain the
text/html marker (such as application/json) yields a report carrying the
HTTP status and the error Skipped non-HTML response, contributes no
successors to the frontier, and the loop continues. -/
theorem crawl_nonhtml_short_circuit (fetch : String → FetchOutcome) (origin : URLModel)
    (o : CrawlOpts) (url : String) (depth : Nat) (rest : List (String × Nat))
    (visited : List String) (pages : List CrawlPage) (normalized : String) (d : PageData)
    (h1 : pages.length < o.maxPages) (h2 : normalizeUrl url = some normalized)
    (h3 : visited.contains normalized = false)
    (h4 : fetch normalized = FetchOutcome.success d)
    (h5 : includesHtml d.contentType = false) :
    crawlLoop fetch origin o ((url, depth) :: rest) visited pages =
      crawlLoop fetch origin o rest (normalized :: visited)
        (pages ++ [{ url := normalized, status := some d.status, title := none,
                     description := none, links := [],
                     error := some "Skipped non-HTML response" }]) :=
  crawlLoop_nonhtml_step fetch origin o url depth rest visited pages normalized d
    h1 h2 h3 h4 h5

/-- C6 witness: an application/json response yields the skip report with
its status recorded and no successors enqueued. -/
theorem crawl_nonhtml_short_circuit_witness :
    crawlLoop fetchJson originA ⟨5, 1, true⟩ [("http://a.com", 0)] [] [] =
      crawlLoop fetchJson originA ⟨5, 1, true⟩ [] ["http://a.com"]
        ([] ++ [{ url := "http://a.com", status := some 200, title := none,
                  description := none, links := [],
                  error := some "Skipped non-HTML response" }]) :=
  crawl_nonhtml_short_circuit fetchJson originA ⟨5, 1, true⟩ "http://a.com" 0 [] [] []
    "http://a.com" jsonPage (by decide) (by decide) (by decide) rfl (by decide)

/-- C7 counterexample: the claim that the query string is preserved
unchanged is false: on an input whose query ends in a slash the trailing
slash is stripped out of the query, because the replacement runs on the
whole serialized string. -/
theorem normalizeUrl_alters_slash_ended_query :
    normalizeUrl "https://example.com/?a=/" = some "https://example.com/?a=" ∧
      (parseURL "https://example.com/?a=/").map URLModel.query ≠
        (parseURL "https://example.com/?a=").map URLModel.query := by
  constructor
  · decide
  · decide

/-- C7 amended: for every parseable absolute URL the returned string
differs from the standard serialization of the input exactly by the
removed fragment suffix and by one or more removed trailing slashes of
the final serialized string; trailing slashes that end the query
component are removed with the rest, and the result never ends in a
slash. -/
theorem normalizeUrl_strips_fragment_and_trailing_slashes (raw : String) (p : URLModel)
    (h : parseList raw.data = some p) :
    ∃ out k, normalizeUrl raw = some out ∧
      serializeList p = out.data ++ List.replicate k '/' ++ fragPart p.frag ∧
      ∀ c r, out.data = r ++ [c] → isSlash c = false := by
  obtain ⟨k, hk⟩ := rstripSlashes_exists_replicate (serializeList { p with frag := none })
  refine ⟨String.mk (rstripSlashes (serializeList { p with frag := none })), k, ?_, ?_, ?_⟩
  · unfold normalizeUrl
    rw [h]
  · rw [serializeList_stripFrag p]
    conv_lhs => rw [hk]
  · intro c r hcr
    exact rstripSlashes_getLast_neg _ c r hcr

/-- C7 witness: on a URL with a trailing slash and a fragment the
normalizer output, the removed slashes and the removed fragment exactly
recompose the standard serialization. -/
theorem normalizeUrl_strips_fragment_and_trailing_slashes_witness :
    ∃ out k, normalizeUrl "https://example.com/a/#sec" = some out ∧
      serializeList { scheme := Scheme.https, host := "example.com".data, port := none,
                      path := "/a/".data, query := none, frag := some "sec".data } =
        out.data ++ List.replicate k '/' ++ fragPart (some "sec".data) ∧
      ∀ c r, out.data = r ++ [c] → isSlash c = false :=
  normalizeUrl_strips_fragment_and_trailing_slashes "https://example.com/a/#sec"
    { scheme := Scheme.https, host := "example.com".data, port := none,
      path := "/a/".data, query := none, frag := some "sec".data } (by decide)

/-- C8: normalization is idempotent: composing normalize with its own
successful output changes nothing, so normalize(normalize(u)) equals
normalize(u) for every URL u. -/
theorem normalizeUrl_idempotent (u : String) :
    (normalizeUrl u).bind normalizeUrl = normalizeUrl u := by
  cases h : normalizeUrl u with
  | none => rfl
  | some out =>
    show normalizeUrl out = some out
    exact normalizeUrl_idem u out h

/-- C9: when the single-page scrape fetch fails, the returned report
carries only the target url and the error reason: status, title,
description, the Open Graph fields and the text preview are absent and
headings and links are empty. -/
theorem scrape_fetch_error_report (fetch : String → FetchOutcome) (target reason : String)
    (h : fetch target = FetchOutcome.failure reason) :
    scrapeCore fetch target =
      { url := target, status := none, title := none, description := none,
        ogTitle := none, ogDescription := none, ogImage := none, textPreview := none,
        headings := [], links := [], error := some reason } := by
  unfold scrapeCore
  rw [h]

/-- C9 witness: a timed-out scrape returns the bare error report. -/
theorem scrape_fetch_error_report_witness :
    scrapeCore fetchTimeout "http://a.com" =
      { url := "http://a.com", status := none, title := none, description := none,
        ogTitle := none, ogDescription := none, ogImage := none, textPreview := none,
        headings := [], links := [], error := some "timeout of 10000ms exceeded" } :=
  scrape_fetch_error_report fetchTimeout "http://a.com" "timeout of 10000ms exceeded" rfl

/-- C10: with sameDomain enabled the domain filter constrains only
frontier expansion, not the reported link lists: this crawl emits a
report whose links contain a URL on another host, while every fetched
page (every report of its own) stays on the start host. -/
theorem crawl_links_cross_domain_reports_same_domain :
    ∃ pages, crawl fetchTwoPages "http://a.com" ⟨5, 1, true⟩ = some pages ∧
      (∃ p ∈ pages, ∃ l ∈ p.links, isSameDomain l originA = false) ∧
      (∀ p ∈ pages, isSameDomain p.url originA = true) := by
  refine ⟨[pgA, pgY], evalTwoPages, ⟨pgA, by decide, "http://b.com/x", by decide, by decide⟩, ?_⟩
  decide
